import Mathlib

/-!
# Verification of the playback-controls state machine

A shallow embedding of `src/playback-controls.ts` (class `PlaybackControls`)
and `src/state-machine.ts`.

Modelling conventions:

* The mutable instance state `#state` (fields `state`, `fraction`, `isSuspended`)
  is the structure `PBState`; `fraction` is a rational number.  The JS special
  values NaN and plus/minus infinity only matter for the guard at the top of
  `#moveInternal`; that guard is modelled separately on the type `JNum`
  (`clampFraction` below), while the machine itself carries finite fractions.
* The external `AnimationListener` is an oracle: the machine records which
  optional hooks exist (`ListenerCfg`), and each synchronous hook answer is an
  input of the operation that consults the hook.  A hook answering with a
  Promise is a suspension: the operation stores a continuation (`SuspKind`)
  under a fresh token in `pending`, and the later settlement of that promise is
  a separate `resolve` input carrying the token.  `#suspensionControl` (the one
  abort controller the instance tracks) is the `current` token; cancelling
  aborts the raced promise, so a cancelled suspension's settlement runs into
  the swallowed `_PlaybackAbortError` branch — in the model, a `resolve` whose
  token is no longer in `pending` changes nothing.
* `requestAnimationFrame` scheduling is the `timer` field of `TimeState`: it
  holds the data the scheduled `run` closure captured (`oneOff`,
  `initialFraction`).  Firing the callback is the `timerFire` input, which
  carries the elapsed time `passed = timestamp - start` chosen by the
  environment.  `millisElapsed` and the suspension-time shift of `start` are
  pure clock bookkeeping and are not part of the state.
* Each operation returns `Machine × Bool`; the `Bool` records whether an
  exception thrown by the listener's `stopped` hook escaped the operation to
  its caller.  Whether the hook throws when invoked is the `stoppedThrows`
  input.  All machine mutations precede the unguarded `stopped` calls in the
  source, so an escaping exception loses no state change.
* `events` logs the `CustomEvent`s dispatched via `#dispatchEvent`
  (observation only); `finishCount` counts invocations of `finish()`
  (instrumentation only — no behaviour reads these two fields).
* DOM presentation is reduced to the four control buttons' `disabled` flags
  (they gate `#clicked`); progress-bar value and tick rendering are dropped.
-/

/-- `PlaybackState` from `state-machine.ts`. -/
inductive PlaybackState
  | stopped
  | playing
  | finished
  | paused
  | playingBackwards
deriving DecidableEq, Repr

/-- `isPlaying()` of `PlaybackStateInfo`: state is one of
`PLAYING`, `PLAYING_BACKWARDS`. -/
def PlaybackState.isPlaying : PlaybackState → Bool
  | .playing => true
  | .playingBackwards => true
  | _ => false

/-- The mutable part of `PlaybackStateInfo` (`#state` minus `time`); also the
shape of the frozen snapshots `{...state}` handed to listeners and events. -/
structure PBState where
  state : PlaybackState
  fraction : ℚ
  isSuspended : Bool
deriving DecidableEq, Repr

/-- A JS `number` as far as `#moveInternal`'s input guard is concerned:
NaN, the two infinities, or a finite value. -/
inductive JNum
  | nan
  | posInf
  | negInf
  | fin (q : ℚ)
deriving DecidableEq, Repr

/-- JS `x < 0` (false for NaN). -/
def JNum.ltZero : JNum → Bool
  | .nan => false
  | .posInf => false
  | .negInf => true
  | .fin q => q < 0

/-- JS `x > 1` (false for NaN). -/
def JNum.gtOne : JNum → Bool
  | .nan => false
  | .posInf => true
  | .negInf => false
  | .fin q => q > 1

/-- JS `isFinite`. -/
def JNum.isFinite : JNum → Bool
  | .fin _ => true
  | _ => false

/-- The finite value (0 for the non-finite cases, which never reach the
point of use). -/
def JNum.toRat : JNum → ℚ
  | .fin q => q
  | _ => 0

/-- The input guard of `#moveInternal` (playback-controls.ts lines 451-456),
in the source's exact branch order:
`if (fraction < 0) fraction = 0; else if (fraction > 1) fraction = 1;
else if (!isFinite(fraction)) throw new Error(...)`.
`.error ()` is the thrown `Error`. -/
def clampFraction (f : JNum) : Except Unit ℚ :=
  if f.ltZero then .ok 0
  else if f.gtOne then .ok 1
  else if !f.isFinite then .error ()
  else .ok f.toRat

/-- The same clamp restricted to finite inputs (the only values the machine's
internal call sites produce). -/
def clamp01 (q : ℚ) : ℚ := if q < 0 then 0 else if q > 1 then 1 else q

/-- Which optional hooks the registered `AnimationListener` provides
(`move` is required by the interface). -/
structure ListenerCfg where
  hasStart : Bool
  hasStopped : Bool
  hasStep : Bool
deriving DecidableEq, Repr

/-- Data captured by a scheduled `run` closure of `#startTimer`. -/
structure TimerCb where
  oneOff : Bool
  initialFraction : ℚ
deriving DecidableEq, Repr

/-- `TimeBasedState` (present while a listener is registered);
`timer` is the pending `requestAnimationFrame` callback, if any. -/
structure TimeState where
  durationMillis : ℚ
  timer : Option TimerCb
deriving DecidableEq, Repr

/-- The continuation of a suspension: which operation is waiting on the
listener's promise, with the data its closures captured. -/
inductive SuspKind
  | startS (backwards : Bool) (prev : PBState)
  | moveS (fraction : ℚ) (prev : PBState)
  | stepS
  | timerS (fraction : ℚ) (initialFraction : ℚ)
deriving DecidableEq, Repr

/-- Tags of the dispatched `CustomEvent`s (strings in the source). -/
inductive EventType
  | startEv
  | startReverse
  | stopEv
  | pauseEv
  | jumpPlaying
  | jumpPaused
  | changeEv
deriving DecidableEq, Repr

/-- A dispatched event: tag plus the frozen `PlaybackTransition`
`{from, to}` snapshot pair. -/
structure Event where
  type : EventType
  fromState : PBState
  toState : PBState
deriving DecidableEq, Repr

/-- One `PlaybackControls` instance.  `pending` holds every suspension whose
raced promise is still unsettled and not aborted; `current` is the token the
instance's `#suspensionControl` field points at; `nextToken` numbers
suspensions in creation order. -/
structure Machine where
  st : PBState
  listener : Option ListenerCfg
  time : Option TimeState
  pending : List (Nat × SuspKind)
  current : Option Nat
  nextToken : Nat
  animationDuration : ℚ
  playDisabled : Bool
  playBackDisabled : Bool
  pauseDisabled : Bool
  stopDisabled : Bool
  events : List Event
  finishCount : Nat
deriving DecidableEq, Repr

namespace PlaybackControls

/-- Whether a listener with a `stopped` hook is registered. -/
def hasStoppedHook (m : Machine) : Bool :=
  match m.listener with
  | some cfg => cfg.hasStopped
  | none => false

/-- Whether a listener with a `step` hook is registered
(`this.#animationCallback?.step`). -/
def hasStepHook (m : Machine) : Bool :=
  match m.listener with
  | some cfg => cfg.hasStep
  | none => false

/-- `PlaybackControls.#updateActivation`, with each call site's net effect on
the four buttons written out (argument order: play, playBackward, pause,
stop; `true` = disabled). -/
def withButtons (m : Machine) (playD playBackD pauseD stopD : Bool) : Machine :=
  { m with playDisabled := playD, playBackDisabled := playBackD,
           pauseDisabled := pauseD, stopDisabled := stopD }

/-- `#cancelTimer`: drop the pending animation-frame callback
(`millisElapsed` bookkeeping not modelled). -/
def cancelTimer (m : Machine) : Machine :=
  match m.time with
  | none => m
  | some t => { m with time := some { t with timer := none } }

/-- `#cancelSuspension`: only acts while `isSuspended`; aborts the tracked
controller (the raced promise of token `current` rejects with
`_PlaybackAbortError`, so that suspension can never fire its continuation:
it leaves `pending`), clears the controller and the flag. -/
def cancelSuspension (m : Machine) : Machine :=
  if m.st.isSuspended then
    let pending := match m.current with
      | some t => m.pending.filter (fun p => p.1 ≠ t)
      | none => m.pending
    { m with pending := pending, current := none,
             st := { m.st with isSuspended := false } }
  else m

/-- `#startTimer(options?)`: requires `time`; cancels the previous callback;
unless one-off, requires a playing state; schedules `run`, whose closure
captures the current fraction as `initialFraction`. -/
def startTimer (m : Machine) (oneOff : Bool) : Machine :=
  match m.time with
  | none => m
  | some t =>
    if !m.st.state.isPlaying && !oneOff then
      { m with time := some { t with timer := none } }
    else
      let cb : TimerCb := { oneOff := oneOff, initialFraction := m.st.fraction }
      { m with time := some { t with timer := some cb } }

/-- `#dispatchEvent(type, oldState)`: emits the tagged event and the
catch-all `change`, both carrying `{from := oldState, to := {...state}}`. -/
def dispatchEvent (m : Machine) (type : EventType) (oldState : PBState) : Machine :=
  { m with events := m.events ++
      [{ type := type, fromState := oldState, toState := m.st },
       { type := .changeEv, fromState := oldState, toState := m.st }] }

/-- `#moveInternal(fraction, options?)` on a finite fraction (the non-finite
guard is `clampFraction` above).  Cancels the timer unless `skipTimer`,
clamps, stores the fraction, resolves resting states and boundary crossings
to STOPPED/FINISHED/PAUSED, updates button activation, and restarts the
timer (one-off when the resulting state is not playing).  The `stopped` hook
invoked in the resting branch sits in `try { ... } catch (e) {}`: a throw
(`stoppedThrows`) is swallowed, hence the constantly-`false` escape flag. -/
def moveInternal (m : Machine) (fraction : ℚ)
    (skipTimer stoppedThrows : Bool) : Machine × Bool :=
  let m0 := if skipTimer then m else cancelTimer m
  let f := clamp01 fraction
  let s0 := m0.st.state
  let m1 :=
    if s0 = .paused ∨ s0 = .stopped ∨ s0 = .finished
        ∨ (f = 0 ∧ s0 = .playingBackwards) ∨ (f = 1 ∧ s0 = .playing) then
      let ns := if f = 0 then PlaybackState.stopped
                else if f = 1 then PlaybackState.finished
                else PlaybackState.paused
      let m2 := { m0 with st := { m0.st with fraction := f, state := ns } }
      if f = 0 then withButtons m2 false false true true
      else withButtons m2 false false true false
    else
      let m2 := { m0 with st := { m0.st with fraction := f } }
      if s0 = .playingBackwards then withButtons m2 false true false false
      else withButtons m2 true false false false
  let m3 :=
    if m1.time.isSome && !skipTimer then
      startTimer m1 (!m1.st.state.isPlaying)
    else m1
  (m3, false)

/-- `stop()`: force state STOPPED, cancel the suspension, commit fraction 0,
then call the `stopped` hook — this trailing call is unguarded, so a throw
escapes to the caller. -/
def stop (m : Machine) (stoppedThrows : Bool) : Machine × Bool :=
  let m := { m with st := { m.st with state := .stopped } }
  let m := cancelSuspension m
  let m := (moveInternal m 0 false stoppedThrows).1
  (m, hasStoppedHook m && stoppedThrows)

/-- `finish()`: symmetric to `stop()` with state FINISHED and fraction 1.
`finishCount` is incremented as instrumentation. -/
def finish (m : Machine) (stoppedThrows : Bool) : Machine × Bool :=
  let m := { m with finishCount := m.finishCount + 1 }
  let m := { m with st := { m.st with state := .finished } }
  let m := cancelSuspension m
  let m := (moveInternal m 1 false stoppedThrows).1
  (m, hasStoppedHook m && stoppedThrows)

/-- `pause()`: cancel the suspension; at the boundaries degrade to
`stop()`/`finish()`; otherwise set PAUSED, update buttons (`#paused`),
cancel the timer and call the `stopped` hook (unguarded). -/
def pause (m : Machine) (stoppedThrows : Bool) : Machine × Bool :=
  let m := cancelSuspension m
  if m.st.fraction ≤ 0 then stop m stoppedThrows
  else if m.st.fraction ≥ 1 then finish m stoppedThrows
  else
    let m := { m with st := { m.st with state := .paused } }
    let m := withButtons m false false true false
    let m := cancelTimer m
    (m, hasStoppedHook m && stoppedThrows)

/-- Synchronous answer of the listener's `start` (or `move`) hook:
`false`/`null`/`undefined`, a Promise, or a committing truthy value. -/
inductive HookRes
  | refuse
  | accept
  | promise
deriving DecidableEq, Repr

/-- The `finishStart` closure of `start()`: clear the flag, update buttons
(`#started`), and start the timer when time-based. -/
def finishStart (m : Machine) (backwards : Bool) : Machine :=
  let m := { m with st := { m.st with isSuspended := false } }
  let m := if backwards then withButtons m false true false false
           else withButtons m true false false false
  if m.time.isSome then startTimer m false else m

/-- The `abort` closure of `start()`: `Object.assign(state, previousState)`
restores the whole snapshot, then the flag is explicitly cleared. -/
def startAbort (m : Machine) (prev : PBState) : Machine :=
  { m with st := { prev with isSuspended := false } }

/-- The unconditional prefix of `start(backwards)` past its guards: cancel
the suspension, tentatively set the playing state, and flip a boundary
fraction to the direction's start (0 forward, 1 backward). -/
def startTentative (m : Machine) (backwards : Bool) : Machine :=
  let m := cancelSuspension m
  let m := { m with st := { m.st with
    state := if backwards then .playingBackwards else .playing } }
  if backwards ∧ m.st.fraction = 0 then
    { m with st := { m.st with fraction := 1 } }
  else if ¬backwards ∧ m.st.fraction = 1 then
    { m with st := { m.st with fraction := 0 } }
  else m

/-- `start(backwards)`: no-op without a listener or when already playing in
the requested direction; otherwise cancels the suspension, tentatively sets
the playing state, flips a boundary fraction to the direction's start, and
negotiates through the optional `start` hook (`res`); without the hook it
commits immediately. -/
def start (m : Machine) (backwards : Bool) (res : HookRes) : Machine × Bool :=
  match m.listener with
  | none => (m, false)
  | some cfg =>
    let prev := m.st
    if m.st.state.isPlaying && (backwards == (m.st.state = .playingBackwards)) then
      (m, false)
    else
      let m := startTentative m backwards
      if cfg.hasStart then
        match res with
        | .refuse => (startAbort m prev, false)
        | .promise =>
          let m := { m with st := { m.st with isSuspended := true } }
          ({ m with
              pending := (m.nextToken, SuspKind.startS backwards prev) :: m.pending,
              current := some m.nextToken,
              nextToken := m.nextToken + 1 }, false)
        | .accept => (finishStart m backwards, false)
      else (finishStart m backwards, false)

/-- The snapshot `move()` hands to the listener's `move` hook
(line 411: `{...previousState, fraction: fraction}`): the candidate
fraction substituted as supplied, with no clamping. -/
def moveHookSnapshot (st : PBState) (fraction : ℚ) : PBState :=
  { st with fraction := fraction }

/-- The `abort` closure of `move()`: clear the flag, restore the previous
fraction, and `pause()`. -/
def moveAbort (m : Machine) (prev : PBState) (stoppedThrows : Bool) : Machine × Bool :=
  let m := { m with st := { m.st with isSuspended := false,
                                      fraction := prev.fraction } }
  pause m stoppedThrows

/-- The `finalize` closure of `move()`: clear the flag, commit via
`#moveInternal`, then dispatch `jumpplaying`/`jumppaused` (picked from the
state as updated by the commit) plus `change`. -/
def moveFinalize (m : Machine) (fraction : ℚ) (prev : PBState)
    (stoppedThrows : Bool) : Machine × Bool :=
  let m := { m with st := { m.st with isSuspended := false } }
  let r := moveInternal m fraction false stoppedThrows
  let type := if r.1.st.state.isPlaying then EventType.jumpPlaying
              else EventType.jumpPaused
  (dispatchEvent r.1 type prev, r.2)

/-- The argument `move()` passes to the listener's `move` hook: the
post-cancellation snapshot with the raw candidate fraction substituted. -/
def moveHookArg (m : Machine) (fraction : ℚ) : PBState :=
  moveHookSnapshot (cancelSuspension m).st fraction

/-- `move(fraction)`: cancel the suspension, snapshot, consult the `move`
hook with `moveHookArg` (a missing listener behaves like a refusal), then
abort, suspend, or finalize. -/
def move (m : Machine) (fraction : ℚ) (res : HookRes)
    (stoppedThrows : Bool) : Machine × Bool :=
  let m := cancelSuspension m
  let prev := m.st
  let res := match m.listener with
    | none => HookRes.refuse
    | some _ => res
  match res with
  | .refuse => moveAbort m prev stoppedThrows
  | .promise =>
    let m := { m with st := { m.st with isSuspended := true } }
    ({ m with pending := (m.nextToken, SuspKind.moveS fraction prev) :: m.pending,
              current := some m.nextToken,
              nextToken := m.nextToken + 1 }, false)
  | .accept => moveFinalize m fraction prev stoppedThrows

/-- Synchronous answer of the listener's `step` hook (`StepResult`):
`false`/`undefined`/`null`, a number, or a Promise. -/
inductive StepRes
  | refuse
  | num (q : ℚ)
  | promise
deriving DecidableEq, Repr

/-- `#step` past the keyboard handling: requires a `step` hook, cancels the
suspension, consults the hook with the current fraction; a synchronous
number is applied through `doStep = #moveInternal` with no further
negotiation and no range check (the deferred path checks [0,1]). -/
def step (m : Machine) (backwards : Bool) (res : StepRes)
    (stoppedThrows : Bool) : Machine × Bool :=
  if !hasStepHook m then (m, false)
  else
    let m := cancelSuspension m
    match res with
    | .refuse => (m, false)
    | .promise =>
      let m := { m with st := { m.st with isSuspended := true } }
      ({ m with pending := (m.nextToken, SuspKind.stepS) :: m.pending,
                current := some m.nextToken,
                nextToken := m.nextToken + 1 }, false)
    | .num q => moveInternal m q false stoppedThrows

/-- `setAnimationListener(listener)`: tear down timer and `time`, install
the listener, attach fresh `TimeBasedState`, and resume the clock when the
machine is in a playing state. -/
def setAnimationListener (m : Machine) (cfg : Option ListenerCfg) : Machine × Bool :=
  let m := if m.time.isSome then { cancelTimer m with time := none } else m
  let m := { m with listener := cfg }
  match cfg with
  | none => (m, false)
  | some _ =>
    let m := { m with time := some { durationMillis := m.animationDuration,
                                     timer := none } }
    if m.st.state.isPlaying then (startTimer m false, false) else (m, false)

/-- The value a settled listener promise delivered: a boolean (for the
`start`/`move` negotiations) or a number (for `step`). -/
inductive ResVal
  | b (x : Bool)
  | n (q : ℚ)
deriving DecidableEq, Repr

/-- JS truthiness of a delivered value. -/
def ResVal.truthy : ResVal → Bool
  | .b x => x
  | .n q => decide (q ≠ 0)

/-- A settlement of a listener promise: fulfilled with a value, or rejected
for a reason other than the machine's own cancellation (a cancellation
rejection is `_PlaybackAbortError`, which every handler swallows — in the
model that promise's token is already gone from `pending`). -/
inductive Resolution
  | fulfilled (v : ResVal)
  | rejected
deriving DecidableEq, Repr

/-- `timeInfo.timer = requestAnimationFrame(run)` re-issued from inside a
`run` invocation: schedule the same closure again (no cancellation). -/
def reschedule (m : Machine) (cb : TimerCb) : Machine :=
  match m.time with
  | some t => { m with time := some { t with timer := some cb } }
  | none => m

/-- Resumption of the clock after a suspended tick (`run`'s `doContinue`
branch): clear the flag, commit with `skipTimer`, and reschedule the same
closure (same `initialFraction`, not one-off); the wall-clock shift of
`start` is bookkeeping outside the state. -/
def timerResume (m : Machine) (fraction initialFraction : ℚ)
    (stoppedThrows : Bool) : Machine × Bool :=
  let m := { m with st := { m.st with isSuspended := false } }
  let m := (moveInternal m fraction true stoppedThrows).1
  let m := reschedule m { oneOff := false, initialFraction := initialFraction }
  (m, false)

/-- Delivery of a promise settlement to the instance.  A token absent from
`pending` (aborted by `#cancelSuspension`, or superseded) only triggers the
swallowed-`_PlaybackAbortError` branch: no state change.  A live token is
consumed and runs its suspension's `then`/`catch` continuation from the
source. -/
def resolve (m : Machine) (token : Nat) (r : Resolution)
    (stoppedThrows : Bool) : Machine × Bool :=
  match m.pending.find? (fun p => p.1 = token) with
  | none => (m, false)
  | some (_, kind) =>
    let m := { m with pending := m.pending.filter (fun p => p.1 ≠ token) }
    match kind, r with
    | .startS backwards prev, .fulfilled v =>
      if v.truthy then (finishStart m backwards, false)
      else (startAbort m prev, false)
    | .startS _ prev, .rejected => (startAbort m prev, false)
    | .moveS fraction prev, .fulfilled v =>
      if v.truthy then moveFinalize m fraction prev stoppedThrows
      else moveAbort m prev stoppedThrows
    | .moveS _ prev, .rejected => moveAbort m prev stoppedThrows
    | .stepS, .fulfilled v =>
      let m := { m with st := { m.st with isSuspended := false } }
      (match v with
       | .n q => if 0 ≤ q ∧ q ≤ 1 then moveInternal m q false stoppedThrows
                 else (m, false)
       | .b _ => (m, false))
    | .stepS, .rejected =>
      ({ m with st := { m.st with isSuspended := false } }, false)
    | .timerS fraction initialFraction, .fulfilled v =>
      if v.truthy then timerResume m fraction initialFraction stoppedThrows
      else pause { m with st := { m.st with isSuspended := false } } stoppedThrows
    | .timerS _ _, .rejected =>
      pause { m with st := { m.st with isSuspended := false } } stoppedThrows

/-- One invocation of the scheduled `run(timestamp)` callback of
`#startTimer`, with `passed = timestamp - start` supplied by the frame
clock.  Derives the candidate fraction, terminates through
`finish()`/`stop()` at the direction's boundary, otherwise consults the
`move` hook (answer `res`); a one-off callback discards the answer and does
not reschedule; otherwise refuse pauses, a promise suspends (overwriting
`#suspensionControl` without aborting it), and truthy commits with
`skipTimer` and reschedules. -/
def timerFire (m : Machine) (passed : ℚ) (res : HookRes)
    (stoppedThrows : Bool) : Machine × Bool :=
  match m.time with
  | none => (m, false)
  | some t =>
    match t.timer with
    | none => (m, false)
    | some cb =>
      let backwards := m.st.state = PlaybackState.playingBackwards
      let fraction :=
        if backwards then max 0 (cb.initialFraction - passed / t.durationMillis)
        else min 1 (passed / t.durationMillis + cb.initialFraction)
      if fraction = 1 ∧ ¬backwards then finish m stoppedThrows
      else if fraction = 0 ∧ backwards then stop m stoppedThrows
      else
        if cb.oneOff then
          ({ m with time := some { t with timer := none } }, false)
        else
          match res with
          | .refuse => pause m stoppedThrows
          | .promise =>
            let m := { m with st := { m.st with isSuspended := true } }
            ({ m with
                pending := (m.nextToken,
                  SuspKind.timerS fraction cb.initialFraction) :: m.pending,
                current := some m.nextToken,
                nextToken := m.nextToken + 1 }, false)
          | .accept =>
            let m := (moveInternal m fraction true stoppedThrows).1
            let m := reschedule m { oneOff := false,
                                    initialFraction := cb.initialFraction }
            (m, false)

/-- `#clicked` with the forward play button as target: gated on the
button's `disabled` attribute, runs `start(false)`, then dispatches the
`start` transition event. -/
def clickPlay (m : Machine) (res : HookRes) : Machine × Bool :=
  if m.playDisabled then (m, false)
  else
    let prev := m.st
    let r := start m false res
    (dispatchEvent r.1 EventType.startEv prev, r.2)

/-- A freshly constructed instance: STOPPED, fraction 0, not suspended; no
listener; pause and stop buttons disabled; default animation duration
10000 ms. -/
def initialMachine : Machine :=
  { st := { state := .stopped, fraction := 0, isSuspended := false },
    listener := none, time := none, pending := [], current := none,
    nextToken := 0, animationDuration := 10000,
    playDisabled := false, playBackDisabled := false,
    pauseDisabled := true, stopDisabled := true,
    events := [], finishCount := 0 }

/-- An environment input to the machine: a public method call with the
listener's synchronous hook answer where one is consulted, a promise
settlement, or a frame-clock callback. -/
inductive Op
  | start (backwards : Bool) (res : HookRes)
  | stop (stoppedThrows : Bool)
  | finish (stoppedThrows : Bool)
  | pause (stoppedThrows : Bool)
  | move (fraction : ℚ) (res : HookRes) (stoppedThrows : Bool)
  | step (backwards : Bool) (res : StepRes) (stoppedThrows : Bool)
  | setListener (cfg : Option ListenerCfg)
  | resolve (token : Nat) (r : Resolution) (stoppedThrows : Bool)
  | timerFire (passed : ℚ) (res : HookRes) (stoppedThrows : Bool)

/-- Apply one input (the escaped-exception flag is dropped: a throw happens
after all mutations). -/
def applyOp (m : Machine) : Op → Machine
  | .start b r => (start m b r).1
  | .stop th => (stop m th).1
  | .finish th => (finish m th).1
  | .pause th => (pause m th).1
  | .move f r th => (move m f r th).1
  | .step b r th => (step m b r th).1
  | .setListener cfg => (setAnimationListener m cfg).1
  | .resolve t r th => (resolve m t r th).1
  | .timerFire p r th => (timerFire m p r th).1

/-- States reachable from a fresh instance under any sequence of method
calls, listener resolutions and frame callbacks. -/
inductive Reachable : Machine → Prop
  | init : Reachable initialMachine
  | next {m : Machine} (op : Op) : Reachable m → Reachable (applyOp m op)

/-- The boundary invariant of `PlaybackStateInfo` (state-machine.ts doc:
"State STOPPED must have fraction 0, state FINISHED must have fraction 1"). -/
def InvPB (s : PBState) : Prop :=
  (s.state = .stopped → s.fraction = 0) ∧ (s.state = .finished → s.fraction = 1)

/-- The invariant extended to the snapshots stored by suspended `start`
calls (their abort path restores that snapshot wholesale). -/
def SuspInv : SuspKind → Prop
  | .startS _ prev => InvPB prev
  | _ => True

/-- Machine-level inductive invariant. -/
def MachineInv (m : Machine) : Prop :=
  InvPB m.st ∧ ∀ p ∈ m.pending, SuspInv p.2

/-- A listener providing only the required `move` hook. -/
def plainCfg : ListenerCfg := { hasStart := false, hasStopped := false, hasStep := false }

/-- A listener that also provides a `start` hook. -/
def startCfg : ListenerCfg := { hasStart := true, hasStopped := false, hasStep := false }

/-- A listener that also provides a `stopped` hook. -/
def stoppedCfg : ListenerCfg := { hasStart := false, hasStopped := true, hasStep := false }

/-- A listener that also provides a `step` hook. -/
def stepCfg : ListenerCfg := { hasStart := false, hasStopped := false, hasStep := true }

/-- Fresh instance with `plainCfg` registered (attaches `time`). -/
def mListener : Machine := applyOp initialMachine (Op.setListener (some plainCfg))

/-- `mListener` after `start(false)` committed: PLAYING at fraction 0 with a
scheduled clock callback. -/
def mPlaying : Machine := applyOp mListener (Op.start false HookRes.accept)

/-- `mListener` after `move(1/2)` accepted synchronously: PAUSED at 1/2. -/
def mPaused : Machine := applyOp mListener (Op.move (1/2) HookRes.accept false)

/-- `mPaused` with a `move(3/5)` suspension pending (token 0). -/
def mMovePending : Machine := applyOp mPaused (Op.move (3/5) HookRes.promise false)

/-- `mMovePending` superseded by `move(3/10)` (token 0 cancelled, token 1
pending). -/
def mMoveSuperseded : Machine :=
  applyOp mMovePending (Op.move (3/10) HookRes.promise false)

/-- `mPlaying` where `move(7/10)` deferred (timer left scheduled), and then
the scheduled clock tick also deferred: two raced promises in flight. -/
def mTwoPending : Machine :=
  applyOp (applyOp mPlaying (Op.move (7/10) HookRes.promise false))
    (Op.timerFire 5000 HookRes.promise false)

/-- Clock-driven boundary crossing: `mPlaying`'s tick at full duration. -/
def mFinishedByTimer : Machine :=
  applyOp mPlaying (Op.timerFire 10000 HookRes.accept false)

/-- Fresh instance with a step-capable listener, playing at fraction 1/2. -/
def mStepPlaying : Machine :=
  applyOp (applyOp (applyOp initialMachine (Op.setListener (some stepCfg)))
    (Op.start false HookRes.accept)) (Op.move (1/2) HookRes.accept false)

/-- Fresh instance whose listener has a `start` hook (for the abort path). -/
def mStartHook : Machine := { initialMachine with listener := some startCfg }

/-- Fresh instance whose listener has a `stopped` hook. -/
def mStoppedHook : Machine := { initialMachine with listener := some stoppedCfg }

end PlaybackControls

namespace PlaybackControls

theorem st_cancelTimer (m : Machine) : (cancelTimer m).st = m.st := by
  cases h : m.time <;> simp [cancelTimer, h]

theorem st_withButtons (m : Machine) (a b c d : Bool) :
    (withButtons m a b c d).st = m.st := rfl

theorem st_startTimer (m : Machine) (oneOff : Bool) :
    (startTimer m oneOff).st = m.st := by
  cases h : m.time <;> simp [startTimer, h] <;> split <;> rfl

theorem st_dispatchEvent (m : Machine) (ty : EventType) (old : PBState) :
    (dispatchEvent m ty old).st = m.st := rfl

theorem state_cancelSuspension (m : Machine) :
    (cancelSuspension m).st.state = m.st.state := by
  unfold cancelSuspension; split <;> rfl

theorem fraction_cancelSuspension (m : Machine) :
    (cancelSuspension m).st.fraction = m.st.fraction := by
  unfold cancelSuspension; split <;> rfl

theorem isSuspended_cancelSuspension (m : Machine) :
    (cancelSuspension m).st.isSuspended = false := by
  unfold cancelSuspension; split <;> simp_all

theorem pending_cancelTimer (m : Machine) : (cancelTimer m).pending = m.pending := by
  cases h : m.time <;> simp [cancelTimer, h]

theorem pending_withButtons (m : Machine) (a b c d : Bool) :
    (withButtons m a b c d).pending = m.pending := rfl

theorem pending_startTimer (m : Machine) (oneOff : Bool) :
    (startTimer m oneOff).pending = m.pending := by
  cases h : m.time <;> simp [startTimer, h] <;> split <;> rfl

theorem pending_dispatchEvent (m : Machine) (ty : EventType) (old : PBState) :
    (dispatchEvent m ty old).pending = m.pending := rfl

theorem pending_moveInternal (m : Machine) (f : ℚ) (sk th : Bool) :
    (moveInternal m f sk th).1.pending = m.pending := by
  cases sk <;>
    simp [moveInternal, apply_ite (f := Machine.pending),
      pending_startTimer, pending_withButtons, pending_cancelTimer, withButtons]

theorem mem_pending_cancelSuspension {m : Machine} {p : Nat × SuspKind} :
    p ∈ (cancelSuspension m).pending → p ∈ m.pending := by
  unfold cancelSuspension
  split
  · cases h : m.current <;> simp [h, List.mem_filter] <;> intro hmem <;>
      first
      | exact hmem
      | exact fun _ => hmem
      | exact hmem.1
  · exact fun h => h

theorem listener_cancelTimer (m : Machine) : (cancelTimer m).listener = m.listener := by
  cases h : m.time <;> simp [cancelTimer, h]

theorem listener_startTimer (m : Machine) (oneOff : Bool) :
    (startTimer m oneOff).listener = m.listener := by
  cases h : m.time <;> simp [startTimer, h] <;> split <;> rfl

theorem listener_cancelSuspension (m : Machine) :
    (cancelSuspension m).listener = m.listener := by
  unfold cancelSuspension; split <;> rfl

theorem listener_moveInternal (m : Machine) (f : ℚ) (sk th : Bool) :
    (moveInternal m f sk th).1.listener = m.listener := by
  cases sk <;>
    simp [moveInternal, apply_ite (f := Machine.listener),
      listener_startTimer, listener_cancelTimer, withButtons]

/-- The state record produced by `#moveInternal`, in closed form. -/
theorem st_moveInternal (m : Machine) (f : ℚ) (sk th : Bool) :
    (moveInternal m f sk th).1.st =
      (if m.st.state = .paused ∨ m.st.state = .stopped ∨ m.st.state = .finished
          ∨ (clamp01 f = 0 ∧ m.st.state = .playingBackwards)
          ∨ (clamp01 f = 1 ∧ m.st.state = .playing) then
        { m.st with
            fraction := clamp01 f
            state := (if clamp01 f = 0 then PlaybackState.stopped
                      else if clamp01 f = 1 then .finished else .paused) }
      else { m.st with fraction := clamp01 f }) := by
  cases sk <;>
    simp [moveInternal, apply_ite (f := Machine.st),
      st_startTimer, st_withButtons, st_cancelTimer, withButtons, cancelTimer] <;>
    cases h : m.time <;> simp [h]

end PlaybackControls

namespace PlaybackControls

attribute [ext] PBState Machine

theorem clamp01_zero : clamp01 0 = 0 := by norm_num [clamp01]

theorem clamp01_one : clamp01 1 = 1 := by norm_num [clamp01]

theorem clamp01_of_mem {q : ℚ} (h0 : 0 ≤ q) (h1 : q ≤ 1) : clamp01 q = q := by
  unfold clamp01
  rw [if_neg (by linarith), if_neg (by linarith)]

theorem fraction_moveInternal (m : Machine) (f : ℚ) (sk th : Bool) :
    (moveInternal m f sk th).1.st.fraction = clamp01 f := by
  rw [st_moveInternal]; split <;> rfl

theorem isSuspended_moveInternal (m : Machine) (f : ℚ) (sk th : Bool) :
    (moveInternal m f sk th).1.st.isSuspended = m.st.isSuspended := by
  rw [st_moveInternal]; split <;> rfl

theorem invPB_moveInternal (m : Machine) (f : ℚ) (sk th : Bool) :
    InvPB (moveInternal m f sk th).1.st := by
  rw [st_moveInternal]
  unfold InvPB
  split_ifs with h1 <;> constructor <;> intro hst <;> simp_all <;>
    split_ifs at hst ⊢ <;> simp_all

theorem state_moveInternal_interior (m : Machine) (f : ℚ) (sk th : Bool)
    (hpl : m.st.state.isPlaying = true) (h0 : 0 < f) (h1 : f < 1) :
    (moveInternal m f sk th).1.st.state = m.st.state := by
  have hc : clamp01 f = f := clamp01_of_mem (le_of_lt h0) (le_of_lt h1)
  rw [st_moveInternal]
  rw [if_neg]
  intro hcond
  rcases hcond with h | h | h | ⟨hf, _⟩ | ⟨hf, _⟩
  · rw [h] at hpl; simp [PlaybackState.isPlaying] at hpl
  · rw [h] at hpl; simp [PlaybackState.isPlaying] at hpl
  · rw [h] at hpl; simp [PlaybackState.isPlaying] at hpl
  · rw [hc] at hf; exact absurd hf (ne_of_gt h0)
  · rw [hc] at hf; exact absurd hf (ne_of_lt h1)

theorem state_moveInternal_interior_all (m : Machine) (f : ℚ) (sk th : Bool)
    (h0 : 0 < f) (h1 : f < 1) :
    (moveInternal m f sk th).1.st.state =
      (if m.st.state.isPlaying = true then m.st.state
       else PlaybackState.paused) := by
  have hc : clamp01 f = f := clamp01_of_mem (le_of_lt h0) (le_of_lt h1)
  rw [st_moveInternal]
  cases hst : m.st.state <;>
    simp [apply_ite (f := PBState.state), PlaybackState.isPlaying, hc,
      ne_of_gt h0, ne_of_lt h1, hst]

theorem st_stop (m : Machine) (th : Bool) :
    (stop m th).1.st = { state := .stopped, fraction := 0, isSuspended := false } := by
  simp only [stop]
  rw [st_moveInternal]
  rw [if_pos]
  · ext <;>
      simp [clamp01_zero, isSuspended_cancelSuspension]
  · refine Or.inr (Or.inl ?_)
    rw [state_cancelSuspension]

theorem st_finish (m : Machine) (th : Bool) :
    (finish m th).1.st = { state := .finished, fraction := 1, isSuspended := false } := by
  simp only [finish]
  rw [st_moveInternal]
  rw [if_pos]
  · ext <;>
      simp [clamp01_one, isSuspended_cancelSuspension, clamp01]
  · refine Or.inr (Or.inr (Or.inl ?_))
    rw [state_cancelSuspension]

theorem invPB_stop (m : Machine) (th : Bool) : InvPB (stop m th).1.st := by
  rw [st_stop]; exact ⟨fun _ => rfl, by simp⟩

theorem invPB_finish (m : Machine) (th : Bool) : InvPB (finish m th).1.st := by
  rw [st_finish]; exact ⟨by simp, fun _ => rfl⟩

theorem invPB_pause (m : Machine) (th : Bool) : InvPB (pause m th).1.st := by
  simp only [pause]
  split_ifs with h1 h2
  · exact invPB_stop _ _
  · exact invPB_finish _ _
  · constructor <;> intro hst <;> simp [st_cancelTimer, st_withButtons] at hst

end PlaybackControls

namespace PlaybackControls

theorem invPB_of_playing {s : PBState} (h : s.state.isPlaying = true) : InvPB s := by
  constructor <;> intro hst <;> rw [hst] at h <;> simp [PlaybackState.isPlaying] at h

theorem invPB_susp {s : PBState} (x : Bool) (h : InvPB s) :
    InvPB { s with isSuspended := x } := h

theorem minv_of_sub {m m' : Machine} (hst : InvPB m'.st)
    (hsub : ∀ p ∈ m'.pending, p ∈ m.pending) (h : MachineInv m) : MachineInv m' :=
  ⟨hst, fun p hp => h.2 p (hsub p hp)⟩

theorem mem_pending_stop {m : Machine} {th : Bool} {p : Nat × SuspKind} :
    p ∈ (stop m th).1.pending → p ∈ m.pending := by
  simp only [stop, pending_moveInternal]
  intro h
  simpa using mem_pending_cancelSuspension h

theorem mem_pending_finish {m : Machine} {th : Bool} {p : Nat × SuspKind} :
    p ∈ (finish m th).1.pending → p ∈ m.pending := by
  simp only [finish, pending_moveInternal]
  intro h
  simpa using mem_pending_cancelSuspension h

theorem mem_pending_pause {m : Machine} {th : Bool} {p : Nat × SuspKind} :
    p ∈ (pause m th).1.pending → p ∈ m.pending := by
  simp only [pause]
  split_ifs with h1 h2
  · exact fun h => mem_pending_cancelSuspension (mem_pending_stop h)
  · exact fun h => mem_pending_cancelSuspension (mem_pending_finish h)
  · intro h
    rw [pending_cancelTimer, pending_withButtons] at h
    exact mem_pending_cancelSuspension h

theorem minv_stop (m : Machine) (th : Bool) (h : MachineInv m) :
    MachineInv (stop m th).1 :=
  minv_of_sub (invPB_stop m th) (fun _ hp => mem_pending_stop hp) h

theorem minv_finish (m : Machine) (th : Bool) (h : MachineInv m) :
    MachineInv (finish m th).1 :=
  minv_of_sub (invPB_finish m th) (fun _ hp => mem_pending_finish hp) h

theorem minv_pause (m : Machine) (th : Bool) (h : MachineInv m) :
    MachineInv (pause m th).1 :=
  minv_of_sub (invPB_pause m th) (fun _ hp => mem_pending_pause hp) h

theorem st_finishStart (m : Machine) (b : Bool) :
    (finishStart m b).st = { m.st with isSuspended := false } := by
  simp [finishStart, apply_ite (f := Machine.st), st_startTimer, st_withButtons]

theorem pending_finishStart (m : Machine) (b : Bool) :
    (finishStart m b).pending = m.pending := by
  simp [finishStart, apply_ite (f := Machine.pending), pending_startTimer,
    pending_withButtons]

end PlaybackControls

namespace PlaybackControls

theorem invPB_cancelSuspension {m : Machine} (h : InvPB m.st) :
    InvPB (cancelSuspension m).st := by
  refine ⟨fun hs => ?_, fun hs => ?_⟩
  · rw [state_cancelSuspension] at hs
    rw [fraction_cancelSuspension]
    exact h.1 hs
  · rw [state_cancelSuspension] at hs
    rw [fraction_cancelSuspension]
    exact h.2 hs

theorem minv_cancelSuspension {m : Machine} (h : MachineInv m) :
    MachineInv (cancelSuspension m) :=
  ⟨invPB_cancelSuspension h.1, fun p hp => h.2 p (mem_pending_cancelSuspension hp)⟩

theorem state_startTentative (m : Machine) (b : Bool) :
    (startTentative m b).st.state =
      (if b then PlaybackState.playingBackwards else .playing) := by
  simp only [startTentative]
  split_ifs <;> rfl

theorem isPlaying_startTentative (m : Machine) (b : Bool) :
    (startTentative m b).st.state.isPlaying = true := by
  rw [state_startTentative]
  cases b <;> simp [PlaybackState.isPlaying]

theorem pending_startTentative (m : Machine) (b : Bool) :
    (startTentative m b).pending = (cancelSuspension m).pending := by
  simp only [startTentative]
  split_ifs <;> rfl

theorem minv_startTentative {m : Machine} (b : Bool) (h : MachineInv m) :
    MachineInv (startTentative m b) := by
  refine ⟨invPB_of_playing (isPlaying_startTentative m b), fun p hp => ?_⟩
  rw [pending_startTentative] at hp
  exact h.2 p (mem_pending_cancelSuspension hp)

theorem minv_finishStart {m : Machine} (b : Bool) (h : MachineInv m) :
    MachineInv (finishStart m b) := by
  refine ⟨?_, fun p hp => ?_⟩
  · rw [st_finishStart]
    exact invPB_susp _ h.1
  · rw [pending_finishStart] at hp
    exact h.2 p hp

theorem minv_start (m : Machine) (b : Bool) (r : HookRes) (h : MachineInv m) :
    MachineInv (start m b r).1 := by
  rcases hl : m.listener with _ | cfg
  · simp only [start, hl]
    exact h
  · cases r with
    | refuse =>
      simp only [start, hl]
      split_ifs with hearly hhas
      · exact h
      · exact ⟨invPB_susp _ h.1,
          fun p hp => (minv_startTentative b h).2 p hp⟩
      · exact minv_finishStart b (minv_startTentative b h)
    | accept =>
      simp only [start, hl]
      split_ifs with hearly hhas
      · exact h
      · exact minv_finishStart b (minv_startTentative b h)
      · exact minv_finishStart b (minv_startTentative b h)
    | promise =>
      simp only [start, hl]
      split_ifs with hearly hhas
      · exact h
      · refine ⟨invPB_susp _ (minv_startTentative b h).1, fun p hp => ?_⟩
        rcases List.mem_cons.mp hp with hp | hp
        · rw [hp]
          exact h.1
        · exact (minv_startTentative b h).2 p hp
      · exact minv_finishStart b (minv_startTentative b h)

end PlaybackControls

namespace PlaybackControls

theorem minv_stop_pend {m : Machine} (th : Bool)
    (hp : ∀ p ∈ m.pending, SuspInv p.2) : MachineInv (stop m th).1 :=
  ⟨invPB_stop m th, fun p hmem => hp p (mem_pending_stop hmem)⟩

theorem minv_finish_pend {m : Machine} (th : Bool)
    (hp : ∀ p ∈ m.pending, SuspInv p.2) : MachineInv (finish m th).1 :=
  ⟨invPB_finish m th, fun p hmem => hp p (mem_pending_finish hmem)⟩

theorem minv_pause_pend {m : Machine} (th : Bool)
    (hp : ∀ p ∈ m.pending, SuspInv p.2) : MachineInv (pause m th).1 :=
  ⟨invPB_pause m th, fun p hmem => hp p (mem_pending_pause hmem)⟩

theorem minv_moveAbort_pend {m : Machine} (prev : PBState) (th : Bool)
    (hp : ∀ p ∈ m.pending, SuspInv p.2) : MachineInv (moveAbort m prev th).1 := by
  simp only [moveAbort]
  exact minv_pause_pend th (fun p hmem => hp p hmem)

theorem minv_moveFinalize_pend {m : Machine} (f : ℚ) (prev : PBState) (th : Bool)
    (hp : ∀ p ∈ m.pending, SuspInv p.2) :
    MachineInv (moveFinalize m f prev th).1 := by
  simp only [moveFinalize]
  refine ⟨?_, fun p hmem => ?_⟩
  · rw [st_dispatchEvent]
    exact invPB_moveInternal _ _ _ _
  · rw [pending_dispatchEvent, pending_moveInternal] at hmem
    exact hp p hmem

theorem st_reschedule (m : Machine) (cb : TimerCb) : (reschedule m cb).st = m.st := by
  cases h : m.time <;> simp [reschedule, h]

theorem pending_reschedule (m : Machine) (cb : TimerCb) :
    (reschedule m cb).pending = m.pending := by
  cases h : m.time <;> simp [reschedule, h]

theorem listener_reschedule (m : Machine) (cb : TimerCb) :
    (reschedule m cb).listener = m.listener := by
  cases h : m.time <;> simp [reschedule, h]

theorem minv_timerResume_pend {m : Machine} (f i : ℚ) (th : Bool)
    (hp : ∀ p ∈ m.pending, SuspInv p.2) : MachineInv (timerResume m f i th).1 := by
  simp only [timerResume]
  refine ⟨?_, fun p hmem => ?_⟩
  · rw [st_reschedule]
    exact invPB_moveInternal _ _ _ _
  · rw [pending_reschedule, pending_moveInternal] at hmem
    exact hp p hmem

theorem minv_move (m : Machine) (f : ℚ) (r : HookRes) (th : Bool)
    (h : MachineInv m) : MachineInv (move m f r th).1 := by
  have hc := minv_cancelSuspension (m := m) h
  rcases hl : m.listener with _ | cfg
  · simp only [move, listener_cancelSuspension, hl]
    exact minv_moveAbort_pend _ th hc.2
  · cases r with
    | refuse =>
      simp only [move, listener_cancelSuspension, hl]
      exact minv_moveAbort_pend _ th hc.2
    | accept =>
      simp only [move, listener_cancelSuspension, hl]
      exact minv_moveFinalize_pend _ _ th hc.2
    | promise =>
      simp only [move, listener_cancelSuspension, hl]
      refine ⟨invPB_susp _ hc.1, fun p hp => ?_⟩
      rcases List.mem_cons.mp hp with hp | hp
      · rw [hp]
        trivial
      · exact hc.2 p hp

theorem minv_step (m : Machine) (b : Bool) (r : StepRes) (th : Bool)
    (h : MachineInv m) : MachineInv (step m b r th).1 := by
  have hc := minv_cancelSuspension (m := m) h
  cases r with
  | refuse =>
    simp only [step]
    split_ifs with hstep
    · exact h
    · exact hc
  | num q =>
    simp only [step]
    split_ifs with hstep
    · exact h
    · refine ⟨invPB_moveInternal _ _ _ _, fun p hp => ?_⟩
      rw [pending_moveInternal] at hp
      exact hc.2 p hp
  | promise =>
    simp only [step]
    split_ifs with hstep
    · exact h
    · refine ⟨invPB_susp _ hc.1, fun p hp => ?_⟩
      rcases List.mem_cons.mp hp with hp | hp
      · rw [hp]
        trivial
      · exact hc.2 p hp

theorem st_setListener (m : Machine) (cfg : Option ListenerCfg) :
    (setAnimationListener m cfg).1.st = m.st := by
  cases cfg <;>
    simp only [setAnimationListener] <;>
    split_ifs <;>
    simp [st_startTimer, st_cancelTimer]

theorem pending_setListener (m : Machine) (cfg : Option ListenerCfg) :
    (setAnimationListener m cfg).1.pending = m.pending := by
  cases cfg <;>
    simp only [setAnimationListener] <;>
    split_ifs <;>
    simp [pending_startTimer, pending_cancelTimer]

theorem minv_setListener (m : Machine) (cfg : Option ListenerCfg)
    (h : MachineInv m) : MachineInv (setAnimationListener m cfg).1 := by
  refine ⟨?_, fun p hp => ?_⟩
  · rw [st_setListener]
    exact h.1
  · rw [pending_setListener] at hp
    exact h.2 p hp

theorem minv_resolve (m : Machine) (t : Nat) (r : Resolution) (th : Bool)
    (h : MachineInv m) : MachineInv (resolve m t r th).1 := by
  rcases hf : m.pending.find? (fun p => p.1 = t) with _ | pk
  · simp only [resolve, hf]
    exact h
  · obtain ⟨tok, kind⟩ := pk
    have hmem : (tok, kind) ∈ m.pending := List.mem_of_find?_eq_some hf
    have hkind := h.2 _ hmem
    have h2 : MachineInv { m with pending := m.pending.filter (fun p => p.1 ≠ t) } :=
      ⟨h.1, fun p hp => h.2 p (List.mem_filter.mp hp).1⟩
    cases kind with
    | startS b prev =>
      cases r with
      | fulfilled v =>
        simp only [resolve, hf]
        split_ifs with htr
        · exact minv_finishStart b h2
        · exact ⟨invPB_susp _ hkind, h2.2⟩
      | rejected =>
        simp only [resolve, hf]
        exact ⟨invPB_susp _ hkind, h2.2⟩
    | moveS fr prev =>
      cases r with
      | fulfilled v =>
        simp only [resolve, hf]
        split_ifs with htr
        · exact minv_moveFinalize_pend _ _ th h2.2
        · exact minv_moveAbort_pend _ th h2.2
      | rejected =>
        simp only [resolve, hf]
        exact minv_moveAbort_pend _ th h2.2
    | stepS =>
      cases r with
      | fulfilled v =>
        cases v with
        | n q =>
          simp only [resolve, hf]
          split_ifs with hrange
          · refine ⟨invPB_moveInternal _ _ _ _, fun p hp => ?_⟩
            rw [pending_moveInternal] at hp
            exact h2.2 p hp
          · exact ⟨invPB_susp _ h2.1, h2.2⟩
        | b x =>
          simp only [resolve, hf]
          exact ⟨invPB_susp _ h2.1, h2.2⟩
      | rejected =>
        simp only [resolve, hf]
        exact ⟨invPB_susp _ h2.1, h2.2⟩
    | timerS fr i =>
      cases r with
      | fulfilled v =>
        simp only [resolve, hf]
        split_ifs with htr
        · exact minv_timerResume_pend _ _ th h2.2
        · exact minv_pause_pend th h2.2
      | rejected =>
        simp only [resolve, hf]
        exact minv_pause_pend th h2.2

theorem minv_mi_reschedule {m : Machine} {f : ℚ} {cb : TimerCb} {sk th : Bool}
    (hp : ∀ p ∈ m.pending, SuspInv p.2) :
    MachineInv (reschedule (moveInternal m f sk th).1 cb) := by
  refine ⟨?_, fun p hmem => ?_⟩
  · rw [st_reschedule]
    exact invPB_moveInternal _ _ _ _
  · rw [pending_reschedule, pending_moveInternal] at hmem
    exact hp p hmem

theorem minv_suspend {m : Machine} (k : SuspKind) (hk : SuspInv k)
    (h : MachineInv m) :
    MachineInv { m with st := { m.st with isSuspended := true },
                        pending := (m.nextToken, k) :: m.pending,
                        current := some m.nextToken,
                        nextToken := m.nextToken + 1 } := by
  refine ⟨invPB_susp _ h.1, fun p hp => ?_⟩
  rcases List.mem_cons.mp hp with hp | hp
  · rw [hp]
    exact hk
  · exact h.2 p hp

theorem minv_timerFire (m : Machine) (pq : ℚ) (r : HookRes) (th : Bool)
    (h : MachineInv m) : MachineInv (timerFire m pq r th).1 := by
  rcases ht : m.time with _ | t
  · simp only [timerFire, ht]
    exact h
  · rcases htm : t.timer with _ | cb
    · simp only [timerFire, ht, htm]
      exact h
    · cases r with
      | refuse =>
        simp only [timerFire, ht, htm]
        generalize (if m.st.state = PlaybackState.playingBackwards
          then max 0 (cb.initialFraction - pq / t.durationMillis)
          else min 1 (pq / t.durationMillis + cb.initialFraction)) = fr
        split_ifs
        · exact minv_finish_pend th h.2
        · exact minv_stop_pend th h.2
        · exact ⟨h.1, h.2⟩
        · exact minv_pause_pend th h.2
      | accept =>
        simp only [timerFire, ht, htm]
        generalize (if m.st.state = PlaybackState.playingBackwards
          then max 0 (cb.initialFraction - pq / t.durationMillis)
          else min 1 (pq / t.durationMillis + cb.initialFraction)) = fr
        split_ifs
        · exact minv_finish_pend th h.2
        · exact minv_stop_pend th h.2
        · exact ⟨h.1, h.2⟩
        · exact minv_mi_reschedule h.2
      | promise =>
        simp only [timerFire, ht, htm]
        generalize (if m.st.state = PlaybackState.playingBackwards
          then max 0 (cb.initialFraction - pq / t.durationMillis)
          else min 1 (pq / t.durationMillis + cb.initialFraction)) = fr
        split_ifs
        · exact minv_finish_pend th h.2
        · exact minv_stop_pend th h.2
        · exact ⟨h.1, h.2⟩
        · exact minv_suspend _ trivial h

end PlaybackControls

namespace PlaybackControls

theorem minv_reachable {m : Machine} (h : Reachable m) : MachineInv m := by
  induction h with
  | init =>
    refine ⟨⟨fun _ => rfl, ?_⟩, ?_⟩
    · intro hfin
      simp [initialMachine] at hfin
    · intro p hp
      simp [initialMachine] at hp
  | next op hr ih =>
    cases op with
    | start b r => exact minv_start _ b r ih
    | stop th => exact minv_stop _ th ih
    | finish th => exact minv_finish _ th ih
    | pause th => exact minv_pause _ th ih
    | move f r th => exact minv_move _ f r th ih
    | step b r th => exact minv_step _ b r th ih
    | setListener cfg => exact minv_setListener _ cfg ih
    | resolve t r th => exact minv_resolve _ t r th ih
    | timerFire p r th => exact minv_timerFire _ p r th ih

/-- C1: in every state reachable from a fresh instance (initially STOPPED
with fraction 0) by any sequence of `start`, `stop`, `finish`, `pause`,
`move`, `step`, `setAnimationListener` calls, listener resolutions (and
frame-clock callbacks), STOPPED implies fraction 0 and FINISHED implies
fraction 1. -/
theorem c1_boundary_invariant (m : Machine) (h : Reachable m) :
    (m.st.state = PlaybackState.stopped → m.st.fraction = 0) ∧
    (m.st.state = PlaybackState.finished → m.st.fraction = 1) :=
  (minv_reachable h).1

/-- Witness for C1 at the machine reached by a single `finish()` call. -/
theorem c1_boundary_invariant_witness :
    Reachable (applyOp initialMachine (Op.finish false)) ∧
    (((applyOp initialMachine (Op.finish false)).st.state = PlaybackState.stopped →
        (applyOp initialMachine (Op.finish false)).st.fraction = 0) ∧
     ((applyOp initialMachine (Op.finish false)).st.state = PlaybackState.finished →
        (applyOp initialMachine (Op.finish false)).st.fraction = 1)) :=
  ⟨Reachable.next _ Reachable.init,
   c1_boundary_invariant _ (Reachable.next _ Reachable.init)⟩

end PlaybackControls

namespace PlaybackControls

theorem events_cancelTimer (m : Machine) : (cancelTimer m).events = m.events := by
  cases h : m.time <;> simp [cancelTimer, h]

theorem events_withButtons (m : Machine) (a b c d : Bool) :
    (withButtons m a b c d).events = m.events := rfl

theorem events_startTimer (m : Machine) (oneOff : Bool) :
    (startTimer m oneOff).events = m.events := by
  cases h : m.time <;> simp [startTimer, h] <;> split <;> rfl

theorem events_cancelSuspension (m : Machine) :
    (cancelSuspension m).events = m.events := by
  unfold cancelSuspension; split <;> rfl

theorem events_moveInternal (m : Machine) (f : ℚ) (sk th : Bool) :
    (moveInternal m f sk th).1.events = m.events := by
  cases sk <;>
    simp [moveInternal, apply_ite (f := Machine.events),
      events_startTimer, events_withButtons, events_cancelTimer, withButtons]

theorem st_cancelSuspension_eq (m : Machine) :
    (cancelSuspension m).st = { m.st with isSuspended := false } := by
  unfold cancelSuspension
  split_ifs with h
  · rfl
  · ext : 1 <;> simp_all

theorem time_cancelSuspension (m : Machine) :
    (cancelSuspension m).time = m.time := by
  unfold cancelSuspension; split <;> rfl

theorem mListener_eval : mListener =
    { st := { state := .stopped, fraction := 0, isSuspended := false }
      listener := some plainCfg
      time := some { durationMillis := 10000, timer := none }
      pending := []
      current := none
      nextToken := 0
      animationDuration := 10000
      playDisabled := false
      playBackDisabled := false
      pauseDisabled := true
      stopDisabled := true
      events := []
      finishCount := 0 } := by
  simp [mListener, applyOp, setAnimationListener, initialMachine, cancelTimer,
    startTimer, PlaybackState.isPlaying]

theorem mPlaying_eval : mPlaying =
    { st := { state := .playing, fraction := 0, isSuspended := false }
      listener := some plainCfg
      time := some { durationMillis := 10000,
                     timer := some { oneOff := false, initialFraction := 0 } }
      pending := []
      current := none
      nextToken := 0
      animationDuration := 10000
      playDisabled := true
      playBackDisabled := false
      pauseDisabled := false
      stopDisabled := false
      events := []
      finishCount := 0 } := by
  rw [mPlaying, mListener_eval]
  simp [applyOp, start, startTentative, cancelSuspension, finishStart,
    startTimer, withButtons, plainCfg, PlaybackState.isPlaying]

end PlaybackControls

namespace PlaybackControls

theorem mPaused_eval : mPaused =
    { st := { state := .paused, fraction := 1/2, isSuspended := false }
      listener := some plainCfg
      time := some { durationMillis := 10000,
                     timer := some { oneOff := true, initialFraction := 1/2 } }
      pending := []
      current := none
      nextToken := 0
      animationDuration := 10000
      playDisabled := false
      playBackDisabled := false
      pauseDisabled := true
      stopDisabled := false
      events := [{ type := EventType.jumpPaused
                   fromState := { state := .stopped, fraction := 0, isSuspended := false }
                   toState := { state := .paused, fraction := 1/2, isSuspended := false } },
                 { type := EventType.changeEv
                   fromState := { state := .stopped, fraction := 0, isSuspended := false }
                   toState := { state := .paused, fraction := 1/2, isSuspended := false } }]
      finishCount := 0 } := by
  rw [mPaused, mListener_eval]
  norm_num [applyOp, move, cancelSuspension, moveFinalize, moveInternal,
    cancelTimer, startTimer, withButtons, dispatchEvent, clamp01,
    PlaybackState.isPlaying, plainCfg]

/-- C2: a `start(false)` call that reaches the listener's `start` hook and is
refused synchronously leaves state and fraction exactly as before the call
and ends with `isSuspended = false` (the full revert of the `abort`
closure).  `m.st.state ≠ PLAYING` says exactly that the call is not the
already-playing-forward no-op, i.e. that the hook is consulted. -/
theorem c2_start_refuse_reverts (m : Machine) (cfg : ListenerCfg)
    (hl : m.listener = some cfg) (hs : cfg.hasStart = true)
    (hnp : m.st.state ≠ PlaybackState.playing) :
    (start m false HookRes.refuse).1.st.state = m.st.state ∧
    (start m false HookRes.refuse).1.st.fraction = m.st.fraction ∧
    (start m false HookRes.refuse).1.st.isSuspended = false := by
  have hguard : (m.st.state.isPlaying &&
      (false == decide (m.st.state = PlaybackState.playingBackwards))) = false := by
    cases hst : m.st.state <;> simp_all [PlaybackState.isPlaying]
  simp only [start, hl, hs, hguard, Bool.false_eq_true, if_false, if_true]
  exact ⟨rfl, rfl, rfl⟩

/-- Witness for C2 on a fresh instance with a `start`-hook listener. -/
theorem c2_start_refuse_reverts_witness :
    (mStartHook.listener = some startCfg ∧ startCfg.hasStart = true ∧
      mStartHook.st.state ≠ PlaybackState.playing) ∧
    ((start mStartHook false HookRes.refuse).1.st.state = mStartHook.st.state ∧
     (start mStartHook false HookRes.refuse).1.st.fraction = mStartHook.st.fraction ∧
     (start mStartHook false HookRes.refuse).1.st.isSuspended = false) :=
  ⟨⟨rfl, rfl, by decide⟩,
   c2_start_refuse_reverts mStartHook startCfg rfl rfl (by decide)⟩

/-- C3 counterexample: the claim "every non-finite fraction raises" fails at
`+Infinity`, which is not finite yet is silently clamped to 1: the
`fraction > 1` branch runs before the finiteness check. -/
theorem c3_counterexample_posInf :
    JNum.posInf.isFinite = false ∧ clampFraction JNum.posInf = Except.ok 1 :=
  ⟨rfl, rfl⟩

/-- C3 amended: of the non-finite inputs only NaN raises; `+Infinity` and
`-Infinity` are clamped to 1 and 0 by the range checks that run first; a
finite value is clamped to [0,1] and never raises. -/
theorem c3_nonfinite_clamp_amended :
    clampFraction JNum.nan = Except.error () ∧
    clampFraction JNum.posInf = Except.ok 1 ∧
    clampFraction JNum.negInf = Except.ok 0 ∧
    ∀ q : ℚ, clampFraction (JNum.fin q) = Except.ok (clamp01 q) := by
  refine ⟨rfl, rfl, rfl, fun q => ?_⟩
  by_cases h1 : q < 0 <;> by_cases h2 : q > 1 <;>
    simp [clampFraction, clamp01, JNum.ltZero, JNum.gtOne, JNum.isFinite,
      JNum.toRat, h1, h2]

end PlaybackControls

namespace PlaybackControls

/-- C4: `move(1/2)` on a PAUSED machine with a listener whose `move` hook
accepts synchronously ends PAUSED at fraction 1/2 and appends exactly one
`jumppaused` and one `change` event, both carrying the before/after
snapshot pair. -/
theorem c4_move_paused_roundtrip (m : Machine) (cfg : ListenerCfg) (th : Bool)
    (hl : m.listener = some cfg) (hp : m.st.state = PlaybackState.paused) :
    (move m (1/2) HookRes.accept th).1.st.state = PlaybackState.paused ∧
    (move m (1/2) HookRes.accept th).1.st.fraction = 1/2 ∧
    (move m (1/2) HookRes.accept th).1.events = m.events ++
      [{ type := EventType.jumpPaused
         fromState := { m.st with isSuspended := false }
         toState := { state := PlaybackState.paused, fraction := 1/2,
                      isSuspended := false } },
       { type := EventType.changeEv
         fromState := { m.st with isSuspended := false }
         toState := { state := PlaybackState.paused, fraction := 1/2,
                      isSuspended := false } }] := by
  have hc2 : clamp01 ((1 : ℚ)/2) = 1/2 :=
    clamp01_of_mem (by norm_num) (by norm_num)
  norm_num [move, listener_cancelSuspension, hl, moveFinalize, st_dispatchEvent,
    st_moveInternal, state_cancelSuspension, fraction_cancelSuspension,
    st_cancelSuspension_eq, events_moveInternal, events_cancelSuspension,
    dispatchEvent, hp, hc2, PlaybackState.isPlaying]

end PlaybackControls

namespace PlaybackControls

/-- C10: the snapshot `move()` hands the listener's `move` hook carries the
candidate fraction exactly as supplied — no clamping before the hook — and
the commit step afterwards stores the clamped value `clamp01 f`. -/
theorem c10_move_hook_unclamped (m : Machine) (f : ℚ) :
    (moveHookArg m f).fraction = f ∧
    ∀ cfg, m.listener = some cfg →
      (move m f HookRes.accept false).1.st.fraction = clamp01 f := by
  constructor
  · rfl
  · intro cfg hl
    simp only [move, listener_cancelSuspension, hl, moveFinalize,
      st_dispatchEvent, fraction_moveInternal]

/-- Witness for C10 at the out-of-range fraction 3/2: the hook observes 3/2,
the committed fraction is the clamp, 1. -/
theorem c10_move_hook_unclamped_witness :
    (moveHookArg mListener (3/2)).fraction = 3/2 ∧
    mListener.listener = some plainCfg ∧
    (move mListener (3/2) HookRes.accept false).1.st.fraction = clamp01 (3/2) ∧
    clamp01 (3/2) = 1 :=
  ⟨(c10_move_hook_unclamped mListener (3/2)).1,
   by rw [mListener_eval],
   (c10_move_hook_unclamped mListener (3/2)).2 plainCfg (by rw [mListener_eval]),
   by norm_num [clamp01]⟩

/-- C8: fresh instance, listener with no `start` hook registered; the
user-initiated forward play click runs `start(false)` and dispatches a
`start` (plus `change`) event from STOPPED to PLAYING; state PLAYING with
fraction still 0. -/
theorem c8_click_start_scenario :
    (clickPlay mListener HookRes.accept).1.st.state = PlaybackState.playing ∧
    (clickPlay mListener HookRes.accept).1.st.fraction = 0 ∧
    (clickPlay mListener HookRes.accept).1.events =
      [{ type := EventType.startEv
         fromState := { state := .stopped, fraction := 0, isSuspended := false }
         toState := { state := .playing, fraction := 0, isSuspended := false } },
       { type := EventType.changeEv
         fromState := { state := .stopped, fraction := 0, isSuspended := false }
         toState := { state := .playing, fraction := 0, isSuspended := false } }] := by
  have hpd : mListener.playDisabled = false := by rw [mListener_eval]
  have h1 : (start mListener false HookRes.accept).1 = mPlaying := rfl
  simp only [clickPlay, hpd, Bool.false_eq_true, if_false, h1]
  rw [mPlaying_eval, mListener_eval]
  simp [dispatchEvent]

theorem escape_stop (m : Machine) (th : Bool) :
    (stop m th).2 = (hasStoppedHook m && th) := by
  simp only [stop]
  have hli : (moveInternal (cancelSuspension
      { m with st := { m.st with state := PlaybackState.stopped } }) 0 false th).1.listener
      = m.listener := by
    rw [listener_moveInternal, listener_cancelSuspension]
  unfold hasStoppedHook
  rw [hli]

theorem escape_finish (m : Machine) (th : Bool) :
    (finish m th).2 = (hasStoppedHook m && th) := by
  simp only [finish]
  have hli : (moveInternal (cancelSuspension
      { m with st := { m.st with state := PlaybackState.finished },
               finishCount := m.finishCount + 1 }) 1 false th).1.listener
      = m.listener := by
    rw [listener_moveInternal, listener_cancelSuspension]
  unfold hasStoppedHook
  rw [hli]

theorem escape_pause (m : Machine) (th : Bool) :
    (pause m th).2 = (hasStoppedHook m && th) := by
  have hlc : (cancelSuspension m).listener = m.listener := listener_cancelSuspension m
  simp only [pause]
  split_ifs with h1 h2
  · rw [escape_stop]
    unfold hasStoppedHook
    rw [hlc]
  · rw [escape_finish]
    unfold hasStoppedHook
    rw [hlc]
  · unfold hasStoppedHook
    rw [listener_cancelTimer, listener_cancelSuspension]
    rfl

/-- C6 counterexample: with a listener providing a throwing `stopped` hook,
`stop()` propagates the exception to its caller (the trailing hook call in
`stop()` has no try/catch), contradicting "no public operation ever
propagates". -/
theorem c6_counterexample_stop_propagates :
    hasStoppedHook mStoppedHook = true ∧ (stop mStoppedHook true).2 = true := by
  constructor
  · rfl
  · rw [escape_stop]
    rfl

/-- C6 amended: the `stopped`-hook invocation inside `#moveInternal` is
wrapped in try/catch, so `#moveInternal` never propagates; but the direct
trailing `stopped` calls of `stop()`, `finish()` and `pause()` are
unguarded: each propagates exactly when a `stopped` hook exists and
throws. -/
theorem c6_stopped_swallow_amended :
    (∀ (m : Machine) (f : ℚ) (sk th : Bool), (moveInternal m f sk th).2 = false) ∧
    (∀ (m : Machine) (th : Bool), (stop m th).2 = (hasStoppedHook m && th)) ∧
    (∀ (m : Machine) (th : Bool), (finish m th).2 = (hasStoppedHook m && th)) ∧
    (∀ (m : Machine) (th : Bool), (pause m th).2 = (hasStoppedHook m && th)) :=
  ⟨fun _ _ _ _ => rfl, escape_stop, escape_finish, escape_pause⟩

end PlaybackControls

namespace PlaybackControls

/-- Witness for C4 at the concrete PAUSED machine `mPaused`. -/
theorem c4_move_paused_roundtrip_witness :
    (mPaused.listener = some plainCfg ∧
     mPaused.st.state = PlaybackState.paused) ∧
    ((move mPaused (1/2) HookRes.accept false).1.st.state = PlaybackState.paused ∧
     (move mPaused (1/2) HookRes.accept false).1.st.fraction = 1/2 ∧
     (move mPaused (1/2) HookRes.accept false).1.events = mPaused.events ++
       [{ type := EventType.jumpPaused
          fromState := { mPaused.st with isSuspended := false }
          toState := { state := PlaybackState.paused, fraction := 1/2,
                       isSuspended := false } },
        { type := EventType.changeEv
          fromState := { mPaused.st with isSuspended := false }
          toState := { state := PlaybackState.paused, fraction := 1/2,
                       isSuspended := false } }]) :=
  ⟨⟨by rw [mPaused_eval], by rw [mPaused_eval]⟩,
   c4_move_paused_roundtrip mPaused plainCfg false
     (by rw [mPaused_eval]) (by rw [mPaused_eval])⟩

/-- A forward tick whose computed fraction reaches 1 runs `finish()` and
returns (no hook call, no rescheduling in `run` itself). -/
theorem timerFire_forward_boundary {m : Machine} {t : TimeState} {cb : TimerCb}
    {pq : ℚ} (r : HookRes) (th : Bool)
    (ht : m.time = some t) (htm : t.timer = some cb)
    (hnb : ¬(m.st.state = PlaybackState.playingBackwards))
    (hfr : min 1 (pq / t.durationMillis + cb.initialFraction) = 1) :
    timerFire m pq r th = finish m th := by
  simp only [timerFire, ht, htm, if_neg hnb]
  rw [if_pos ⟨hfr, hnb⟩]

theorem mFinishedByTimer_eval : mFinishedByTimer =
    { st := { state := .finished, fraction := 1, isSuspended := false }
      listener := some plainCfg
      time := some { durationMillis := 10000,
                     timer := some { oneOff := true, initialFraction := 1 } }
      pending := []
      current := none
      nextToken := 0
      animationDuration := 10000
      playDisabled := false
      playBackDisabled := false
      pauseDisabled := true
      stopDisabled := false
      events := []
      finishCount := 1 } := by
  rw [mFinishedByTimer, mPlaying_eval]
  simp only [applyOp]
  rw [timerFire_forward_boundary HookRes.accept false rfl rfl (by simp)
    (by norm_num)]
  norm_num [finish, cancelSuspension, moveInternal,
    cancelTimer, startTimer, withButtons, clamp01, PlaybackState.isPlaying]

/-- C5 (code bug): when clock-driven forward playback reaches fraction 1 the
machine calls `finish()` once — but `finish()`'s commit restarts a one-off
timer callback (initial fraction 1), so a further callback IS scheduled, and
firing it computes fraction 1 again and calls `finish()` a second time (and
so on, once per frame). -/
theorem c5_finish_reschedules_bug :
    mFinishedByTimer.finishCount = 1 ∧
    mFinishedByTimer.time =
      some { durationMillis := 10000
             timer := some { oneOff := true, initialFraction := 1 } } ∧
    (timerFire mFinishedByTimer 16 HookRes.accept false).1.finishCount = 2 ∧
    (timerFire mFinishedByTimer 16 HookRes.accept false).1.time =
      some { durationMillis := 10000
             timer := some { oneOff := true, initialFraction := 1 } } := by
  refine ⟨by rw [mFinishedByTimer_eval], by rw [mFinishedByTimer_eval], ?_, ?_⟩ <;>
    rw [mFinishedByTimer_eval] <;>
    rw [timerFire_forward_boundary HookRes.accept false rfl rfl (by simp)
      (by norm_num)] <;>
    norm_num [finish, cancelSuspension, moveInternal, cancelTimer,
      startTimer, withButtons, clamp01, PlaybackState.isPlaying]

end PlaybackControls

namespace PlaybackControls

theorem mStepPlaying_eval : mStepPlaying =
    { st := { state := .playing, fraction := 1/2, isSuspended := false }
      listener := some stepCfg
      time := some { durationMillis := 10000,
                     timer := some { oneOff := false, initialFraction := 1/2 } }
      pending := []
      current := none
      nextToken := 0
      animationDuration := 10000
      playDisabled := true
      playBackDisabled := false
      pauseDisabled := false
      stopDisabled := false
      events := [{ type := EventType.jumpPlaying
                   fromState := { state := .playing, fraction := 0, isSuspended := false }
                   toState := { state := .playing, fraction := 1/2, isSuspended := false } },
                 { type := EventType.changeEv
                   fromState := { state := .playing, fraction := 0, isSuspended := false }
                   toState := { state := .playing, fraction := 1/2, isSuspended := false } }]
      finishCount := 0 } := by
  rw [mStepPlaying]
  simp only [applyOp]
  norm_num [setAnimationListener, initialMachine, cancelTimer,
    startTimer, start, startTentative, cancelSuspension, finishStart,
    withButtons, stepCfg, PlaybackState.isPlaying]
  all_goals try norm_num [move, moveFinalize, moveInternal, cancelSuspension,
    cancelTimer, startTimer, withButtons, dispatchEvent, clamp01,
    PlaybackState.isPlaying]
  all_goals try simp
  all_goals try norm_num

/-- C9 counterexample: a successful step whose returned fraction is 1 (which
is inside [0,1]) moves a PLAYING machine to FINISHED — the step changed the
discrete play state, not only the position. -/
theorem c9_counterexample_step_boundary :
    mStepPlaying.st.state = PlaybackState.playing ∧
    ((0:ℚ) ≤ 1 ∧ (1:ℚ) ≤ 1) ∧
    (step mStepPlaying false (StepRes.num 1) false).1.st.state =
      PlaybackState.finished := by
  refine ⟨by rw [mStepPlaying_eval], by norm_num, ?_⟩
  rw [mStepPlaying_eval]
  norm_num [step, hasStepHook, stepCfg, cancelSuspension, moveInternal,
    cancelTimer, startTimer, withButtons, clamp01, PlaybackState.isPlaying]

/-- C9 amended: a successful step (synchronous number, or a fulfilled
deferred number in [0,1]) is applied through `#moveInternal` with no
state-machine renegotiation, but steps do not only move the position: for a
resulting fraction strictly inside (0,1) the discrete state becomes exactly
`if isPlaying then unchanged else PAUSED` — a playing state (PLAYING or
PLAYING_BACKWARDS) is preserved, while a resting prior (STOPPED, FINISHED,
PAUSED) lands in PAUSED, so an interior step out of STOPPED or FINISHED
changes the discrete state; a boundary result (0 or 1) likewise resolves
the discrete state via `#moveInternal`'s resting rules. -/
theorem c9_step_amended (m : Machine) (cfg : ListenerCfg) (q : ℚ) (b th : Bool)
    (hl : m.listener = some cfg) (hstep : cfg.hasStep = true)
    (h0 : 0 < q) (h1 : q < 1) :
    ((step m b (StepRes.num q) th).1.st.state =
        (if m.st.state.isPlaying = true then m.st.state
         else PlaybackState.paused) ∧
     (step m b (StepRes.num q) th).1.st.fraction = q) ∧
    (∀ tok : Nat,
      m.pending.find? (fun p => p.1 = tok) = some (tok, SuspKind.stepS) →
      (resolve m tok (Resolution.fulfilled (ResVal.n q)) th).1.st.state =
        (if m.st.state.isPlaying = true then m.st.state
         else PlaybackState.paused) ∧
      (resolve m tok (Resolution.fulfilled (ResVal.n q)) th).1.st.fraction = q) := by
  have hhs : hasStepHook m = true := by
    unfold hasStepHook
    rw [hl]
    exact hstep
  have hcl : clamp01 q = q := clamp01_of_mem (le_of_lt h0) (le_of_lt h1)
  constructor
  · simp only [step, hhs, Bool.not_true, Bool.false_eq_true, if_false]
    constructor
    · rw [state_moveInternal_interior_all _ _ _ _ h0 h1, state_cancelSuspension]
    · rw [fraction_moveInternal, hcl]
  · intro tok hfind
    simp only [resolve, hfind]
    rw [if_pos ⟨le_of_lt h0, le_of_lt h1⟩]
    constructor
    · exact state_moveInternal_interior_all _ q false th h0 h1
    · rw [fraction_moveInternal, hcl]

/-- Witness for C9 amended at the concrete playing machine: an interior
step lands in `if isPlaying then unchanged else PAUSED` (here PLAYING is
preserved) and moves the fraction. -/
theorem c9_step_amended_witness :
    (mStepPlaying.listener = some stepCfg ∧ stepCfg.hasStep = true ∧
     (0:ℚ) < 3/4 ∧ (3/4:ℚ) < 1) ∧
    (((step mStepPlaying false (StepRes.num (3/4)) false).1.st.state
        = (if mStepPlaying.st.state.isPlaying = true then mStepPlaying.st.state
           else PlaybackState.paused) ∧
      (step mStepPlaying false (StepRes.num (3/4)) false).1.st.fraction = 3/4) ∧
     (∀ tok : Nat,
       mStepPlaying.pending.find? (fun p => p.1 = tok)
           = some (tok, SuspKind.stepS) →
       (resolve mStepPlaying tok (Resolution.fulfilled (ResVal.n (3/4))) false).1.st.state
           = (if mStepPlaying.st.state.isPlaying = true then mStepPlaying.st.state
              else PlaybackState.paused) ∧
       (resolve mStepPlaying tok (Resolution.fulfilled (ResVal.n (3/4))) false).1.st.fraction
           = 3/4)) :=
  ⟨⟨by rw [mStepPlaying_eval], rfl, by norm_num, by norm_num⟩,
   c9_step_amended mStepPlaying stepCfg (3/4) false false
     (by rw [mStepPlaying_eval]) rfl (by norm_num) (by norm_num)⟩

end PlaybackControls

namespace PlaybackControls

theorem tokens_mono {l l' : List (Nat × SuspKind)} {t : Nat}
    (hsub : ∀ p ∈ l', p ∈ l) (h : t ∉ l.map Prod.fst) : t ∉ l'.map Prod.fst := by
  intro hin
  rcases List.mem_map.mp hin with ⟨p, hp, hfst⟩
  exact h (List.mem_map.mpr ⟨p, hsub p hp, hfst⟩)

theorem notMem_tokens_filter (l : List (Nat × SuspKind)) (t : Nat) :
    t ∉ (l.filter (fun p => p.1 ≠ t)).map Prod.fst := by
  intro hin
  rcases List.mem_map.mp hin with ⟨p, hp, hfst⟩
  rcases List.mem_filter.mp hp with ⟨_, hne⟩
  simp at hne
  exact hne hfst

theorem tokens_cancelSuspension {m : Machine} {t : Nat}
    (hcur : m.current = some t) (hsusp : m.st.isSuspended = true) :
    t ∉ (cancelSuspension m).pending.map Prod.fst := by
  unfold cancelSuspension
  rw [if_pos hsusp]
  simp only [hcur]
  exact notMem_tokens_filter m.pending t

theorem cancelSuspension_of_not {m : Machine} (h : m.st.isSuspended = false) :
    cancelSuspension m = m := by
  unfold cancelSuspension
  rw [if_neg]
  simp [h]

theorem pending_cancelSuspension_congr {m m' : Machine}
    (hsusp : m'.st.isSuspended = m.st.isSuspended)
    (hcur : m'.current = m.current) (hpend : m'.pending = m.pending) :
    (cancelSuspension m').pending = (cancelSuspension m).pending := by
  unfold cancelSuspension
  simp only [apply_ite (f := Machine.pending), hsusp, hcur, hpend]

theorem pending_stop_cs (m : Machine) (th : Bool) :
    (stop m th).1.pending = (cancelSuspension m).pending := by
  simp only [stop, pending_moveInternal]
  exact pending_cancelSuspension_congr rfl rfl rfl

theorem pending_finish_cs (m : Machine) (th : Bool) :
    (finish m th).1.pending = (cancelSuspension m).pending := by
  simp only [finish, pending_moveInternal]
  exact pending_cancelSuspension_congr rfl rfl rfl

theorem pending_pause_sub (m : Machine) (th : Bool) :
    ∀ p ∈ (pause m th).1.pending, p ∈ (cancelSuspension m).pending := by
  simp only [pause]
  split_ifs with h1 h2
  · intro p hp
    rw [pending_stop_cs] at hp
    rwa [cancelSuspension_of_not (isSuspended_cancelSuspension m)] at hp
  · intro p hp
    rw [pending_finish_cs] at hp
    rwa [cancelSuspension_of_not (isSuspended_cancelSuspension m)] at hp
  · intro p hp
    rwa [pending_cancelTimer, pending_withButtons] at hp

theorem mem_pending_moveAbort {m : Machine} {prev : PBState} {th : Bool}
    {p : Nat × SuspKind} :
    p ∈ (moveAbort m prev th).1.pending → p ∈ m.pending := by
  simp only [moveAbort]
  intro hp
  have h2 := pending_pause_sub _ th p hp
  first
  | exact h2
  | rwa [cancelSuspension_of_not rfl] at h2

theorem pending_moveFinalize (m : Machine) (f : ℚ) (prev : PBState) (th : Bool) :
    (moveFinalize m f prev th).1.pending = m.pending := by
  simp only [moveFinalize, pending_dispatchEvent, pending_moveInternal]

end PlaybackControls

namespace PlaybackControls

theorem nextToken_cancelSuspension (m : Machine) :
    (cancelSuspension m).nextToken = m.nextToken := by
  unfold cancelSuspension
  split <;> rfl

theorem pending_startTentative_cs (m : Machine) (b : Bool) :
    (startTentative m b).pending = (cancelSuspension m).pending := by
  simp only [startTentative]
  split_ifs <;> rfl

theorem nextToken_startTentative (m : Machine) (b : Bool) :
    (startTentative m b).nextToken = m.nextToken := by
  simp only [startTentative]
  split_ifs <;> exact nextToken_cancelSuspension m

theorem tok_stop {m : Machine} {t : Nat} (th : Bool)
    (hcur : m.current = some t) (hsusp : m.st.isSuspended = true) :
    t ∉ (stop m th).1.pending.map Prod.fst := by
  rw [pending_stop_cs]
  exact tokens_cancelSuspension hcur hsusp

theorem tok_finish {m : Machine} {t : Nat} (th : Bool)
    (hcur : m.current = some t) (hsusp : m.st.isSuspended = true) :
    t ∉ (finish m th).1.pending.map Prod.fst := by
  rw [pending_finish_cs]
  exact tokens_cancelSuspension hcur hsusp

theorem tok_pause {m : Machine} {t : Nat} (th : Bool)
    (hcur : m.current = some t) (hsusp : m.st.isSuspended = true) :
    t ∉ (pause m th).1.pending.map Prod.fst :=
  tokens_mono (pending_pause_sub m th) (tokens_cancelSuspension hcur hsusp)

theorem tok_move {m : Machine} {t : Nat} (f : ℚ) (r : HookRes) (th : Bool)
    (hcur : m.current = some t) (hsusp : m.st.isSuspended = true)
    (htok : t < m.nextToken) :
    t ∉ (move m f r th).1.pending.map Prod.fst := by
  have hbase := tokens_cancelSuspension hcur hsusp
  rcases hl : m.listener with _ | cfg
  · simp only [move, listener_cancelSuspension, hl]
    exact tokens_mono (fun p hp => mem_pending_moveAbort hp) hbase
  · cases r with
    | refuse =>
      simp only [move, listener_cancelSuspension, hl]
      exact tokens_mono (fun p hp => mem_pending_moveAbort hp) hbase
    | accept =>
      simp only [move, listener_cancelSuspension, hl]
      rw [pending_moveFinalize]
      exact hbase
    | promise =>
      simp only [move, listener_cancelSuspension, hl, List.map_cons, List.mem_cons]
      rintro (h | h)
      · rw [nextToken_cancelSuspension] at h
        rw [h] at htok
        exact lt_irrefl _ htok
      · exact hbase h

theorem tok_start {m : Machine} {t : Nat} {cfg : ListenerCfg} (b : Bool)
    (r : HookRes) (hl : m.listener = some cfg)
    (hguard : (m.st.state.isPlaying &&
      (b == decide (m.st.state = PlaybackState.playingBackwards))) = false)
    (hcur : m.current = some t) (hsusp : m.st.isSuspended = true)
    (htok : t < m.nextToken) :
    t ∉ (start m b r).1.pending.map Prod.fst := by
  have hbase := tokens_cancelSuspension hcur hsusp
  have htent : t ∉ (startTentative m b).pending.map Prod.fst := by
    rw [pending_startTentative_cs]
    exact hbase
  cases r with
  | refuse =>
    simp only [start, hl, hguard, Bool.false_eq_true, if_false]
    split_ifs
    · exact htent
    · rw [pending_finishStart]
      exact htent
  | accept =>
    simp only [start, hl, hguard, Bool.false_eq_true, if_false]
    split_ifs <;> rw [pending_finishStart] <;> exact htent
  | promise =>
    simp only [start, hl, hguard, Bool.false_eq_true, if_false]
    split_ifs
    · simp only [List.map_cons, List.mem_cons]
      rintro (h | h)
      · rw [nextToken_startTentative] at h
        rw [h] at htok
        exact lt_irrefl _ htok
      · exact htent h
    · rw [pending_finishStart]
      exact htent

theorem tok_step {m : Machine} {t : Nat} (b : Bool) (r : StepRes) (th : Bool)
    (hstep : hasStepHook m = true)
    (hcur : m.current = some t) (hsusp : m.st.isSuspended = true)
    (htok : t < m.nextToken) :
    t ∉ (step m b r th).1.pending.map Prod.fst := by
  have hbase := tokens_cancelSuspension hcur hsusp
  cases r with
  | refuse =>
    simp only [step, hstep, Bool.not_true, Bool.false_eq_true, if_false]
    exact hbase
  | num q =>
    simp only [step, hstep, Bool.not_true, Bool.false_eq_true, if_false]
    rw [pending_moveInternal]
    exact hbase
  | promise =>
    simp only [step, hstep, Bool.not_true, Bool.false_eq_true, if_false,
      List.map_cons, List.mem_cons]
    rintro (h | h)
    · rw [nextToken_cancelSuspension] at h
      rw [h] at htok
      exact lt_irrefl _ htok
    · exact hbase h

theorem resolve_stale {m : Machine} {t : Nat} (r : Resolution) (th : Bool)
    (h : t ∉ m.pending.map Prod.fst) : resolve m t r th = (m, false) := by
  have hf : m.pending.find? (fun p => p.1 = t) = none := by
    rw [List.find?_eq_none]
    intro p hp
    simp only [decide_eq_true_eq]
    intro he
    exact h (List.mem_map.mpr ⟨p, hp, he⟩)
  simp only [resolve, hf]

theorem timerFire_promise_pending {m : Machine} {t : TimeState} {cb : TimerCb}
    {pq : ℚ} (th : Bool)
    (ht : m.time = some t) (htm : t.timer = some cb) (hoo : cb.oneOff = false)
    (hnb : ¬(m.st.state = PlaybackState.playingBackwards))
    (hf1 : ¬(min 1 (pq / t.durationMillis + cb.initialFraction) = 1)) :
    (timerFire m pq HookRes.promise th).1.pending =
      (m.nextToken, SuspKind.timerS
        (min 1 (pq / t.durationMillis + cb.initialFraction))
        cb.initialFraction) :: m.pending := by
  simp only [timerFire, ht, htm, if_neg hnb]
  rw [if_neg (fun h : _ ∧ _ => hf1 h.1)]
  rw [if_neg (fun h : _ ∧ _ => hnb h.2)]
  rw [if_neg (by simp [hoo])]

end PlaybackControls

namespace PlaybackControls

theorem mMovePending_eval : mMovePending =
    { st := { state := .paused, fraction := 1/2, isSuspended := true }
      listener := some plainCfg
      time := some { durationMillis := 10000,
                     timer := some { oneOff := true, initialFraction := 1/2 } }
      pending := [(0, SuspKind.moveS (3/5)
        { state := .paused, fraction := 1/2, isSuspended := false })]
      current := some 0
      nextToken := 1
      animationDuration := 10000
      playDisabled := false
      playBackDisabled := false
      pauseDisabled := true
      stopDisabled := false
      events := [{ type := EventType.jumpPaused
                   fromState := { state := .stopped, fraction := 0, isSuspended := false }
                   toState := { state := .paused, fraction := 1/2, isSuspended := false } },
                 { type := EventType.changeEv
                   fromState := { state := .stopped, fraction := 0, isSuspended := false }
                   toState := { state := .paused, fraction := 1/2, isSuspended := false } }]
      finishCount := 0 } := by
  rw [mMovePending, mPaused_eval]
  norm_num [applyOp, move, cancelSuspension]
  all_goals simp

theorem mMoveSuperseded_eval : mMoveSuperseded =
    { st := { state := .paused, fraction := 1/2, isSuspended := true }
      listener := some plainCfg
      time := some { durationMillis := 10000,
                     timer := some { oneOff := true, initialFraction := 1/2 } }
      pending := [(1, SuspKind.moveS (3/10)
        { state := .paused, fraction := 1/2, isSuspended := false })]
      current := some 1
      nextToken := 2
      animationDuration := 10000
      playDisabled := false
      playBackDisabled := false
      pauseDisabled := true
      stopDisabled := false
      events := [{ type := EventType.jumpPaused
                   fromState := { state := .stopped, fraction := 0, isSuspended := false }
                   toState := { state := .paused, fraction := 1/2, isSuspended := false } },
                 { type := EventType.changeEv
                   fromState := { state := .stopped, fraction := 0, isSuspended := false }
                   toState := { state := .paused, fraction := 1/2, isSuspended := false } }]
      finishCount := 0 } := by
  rw [mMoveSuperseded, mMovePending_eval]
  norm_num [applyOp, move, cancelSuspension]
  all_goals simp

end PlaybackControls

namespace PlaybackControls

theorem fraction_moveFinalize (m : Machine) (f : ℚ) (prev : PBState) (th : Bool) :
    (moveFinalize m f prev th).1.st.fraction = clamp01 f := by
  simp only [moveFinalize, st_dispatchEvent, fraction_moveInternal]

theorem scenarioA_fraction :
    (applyOp (applyOp mMoveSuperseded
        (Op.resolve 0 (Resolution.fulfilled (ResVal.b true)) false))
        (Op.resolve 1 (Resolution.fulfilled (ResVal.b true)) false)).st.fraction
      = 3/10 := by
  have h1 : applyOp mMoveSuperseded
      (Op.resolve 0 (Resolution.fulfilled (ResVal.b true)) false)
      = mMoveSuperseded := by
    simp only [applyOp]
    rw [resolve_stale _ _ (by rw [mMoveSuperseded_eval]; simp)]
  rw [h1, mMoveSuperseded_eval]
  simp only [applyOp, resolve, List.find?]
  norm_num [ResVal.truthy, fraction_moveFinalize, clamp01]

theorem scenarioB_fraction :
    (applyOp (applyOp mMoveSuperseded
        (Op.resolve 1 (Resolution.fulfilled (ResVal.b true)) false))
        (Op.resolve 0 (Resolution.fulfilled (ResVal.b true)) false)).st.fraction
      = 3/10 := by
  have hpend : (resolve mMoveSuperseded 1
      (Resolution.fulfilled (ResVal.b true)) false).1.pending = [] := by
    rw [mMoveSuperseded_eval]
    simp only [resolve, List.find?]
    norm_num [ResVal.truthy, pending_moveFinalize]
  have h2 : applyOp (applyOp mMoveSuperseded
      (Op.resolve 1 (Resolution.fulfilled (ResVal.b true)) false))
      (Op.resolve 0 (Resolution.fulfilled (ResVal.b true)) false)
      = applyOp mMoveSuperseded
        (Op.resolve 1 (Resolution.fulfilled (ResVal.b true)) false) := by
    simp only [applyOp]
    rw [resolve_stale _ _ (by rw [hpend]; simp)]
  rw [h2, mMoveSuperseded_eval]
  simp only [applyOp, resolve, List.find?]
  norm_num [ResVal.truthy, fraction_moveFinalize, clamp01]

end PlaybackControls

namespace PlaybackControls

/-- C7 (counterexample): the spec says a newer suspension always cancels the
outstanding one, but the frame-clock promise branch of `#startTimer`
overwrites `#suspensionControl` without aborting it.  From a fresh instance,
`start(false)`, a deferred `move(7/10)`, and then a deferred clock tick
yield a reachable machine with TWO suspensions outstanding at once. -/
theorem c7_counterexample_two_pending :
    Reachable mTwoPending ∧ mTwoPending.pending.length = 2 := by
  constructor
  · rw [mTwoPending, mPlaying, mListener]
    exact Reachable.next _ (Reachable.next _ (Reachable.next _
      (Reachable.next _ Reachable.init)))
  · have hm7 : applyOp mPlaying (Op.move (7/10) HookRes.promise false) =
        { st := { state := .playing, fraction := 0, isSuspended := true }
          listener := some plainCfg
          time := some { durationMillis := 10000,
                         timer := some { oneOff := false, initialFraction := 0 } }
          pending := [(0, SuspKind.moveS (7/10)
            { state := .playing, fraction := 0, isSuspended := false })]
          current := some 0
          nextToken := 1
          animationDuration := 10000
          playDisabled := true
          playBackDisabled := false
          pauseDisabled := false
          stopDisabled := false
          events := []
          finishCount := 0 } := by
      rw [mPlaying_eval]
      norm_num [applyOp, move, cancelSuspension]
      all_goals simp
    rw [mTwoPending, hm7]
    simp only [applyOp]
    rw [timerFire_promise_pending false rfl rfl rfl (by simp) (by norm_num)]
    rfl

end PlaybackControls

namespace PlaybackControls

/-- C7 (amended): every explicitly-cancelling path honours supersession.  If
the machine tracks a current suspension token, then `stop`, `finish`,
`pause`, `move`, a guard-passing `start`, and `#step` all leave the machine
with that token cancelled (it is absent from the outstanding suspensions,
so its later settlement is the swallowed-abort no-op), stale settlements of
a cancelled token never change the machine, and in the concrete
superseding-`move` scenario the committed fraction is the newer call's
`3/10` in either settlement order.  Only the frame-clock promise branch
(`c7_counterexample_two_pending`'s path, which bypasses
`#cancelSuspension`) escapes this discipline. -/
theorem c7_supersession_amended (m : Machine) (cfg : ListenerCfg) (t : Nat)
    (hl : m.listener = some cfg) (hcur : m.current = some t)
    (hsusp : m.st.isSuspended = true) (htok : t < m.nextToken) :
    (∀ th : Bool, t ∉ (stop m th).1.pending.map Prod.fst) ∧
    (∀ th : Bool, t ∉ (finish m th).1.pending.map Prod.fst) ∧
    (∀ th : Bool, t ∉ (pause m th).1.pending.map Prod.fst) ∧
    (∀ (f : ℚ) (r : HookRes) (th : Bool),
      t ∉ (move m f r th).1.pending.map Prod.fst) ∧
    (∀ (b : Bool) (r : HookRes),
      (m.st.state.isPlaying &&
        (b == decide (m.st.state = PlaybackState.playingBackwards))) = false →
      t ∉ (start m b r).1.pending.map Prod.fst) ∧
    (∀ (b : Bool) (r : StepRes) (th : Bool), hasStepHook m = true →
      t ∉ (step m b r th).1.pending.map Prod.fst) ∧
    (∀ (mo : Machine) (r : Resolution) (th : Bool),
      t ∉ mo.pending.map Prod.fst → resolve mo t r th = (mo, false)) ∧
    (applyOp (applyOp mMoveSuperseded
        (Op.resolve 0 (Resolution.fulfilled (ResVal.b true)) false))
        (Op.resolve 1 (Resolution.fulfilled (ResVal.b true)) false)).st.fraction
      = 3/10 ∧
    (applyOp (applyOp mMoveSuperseded
        (Op.resolve 1 (Resolution.fulfilled (ResVal.b true)) false))
        (Op.resolve 0 (Resolution.fulfilled (ResVal.b true)) false)).st.fraction
      = 3/10 :=
  ⟨fun th => tok_stop th hcur hsusp,
   fun th => tok_finish th hcur hsusp,
   fun th => tok_pause th hcur hsusp,
   fun f r th => tok_move f r th hcur hsusp htok,
   fun b r hg => tok_start b r hl hg hcur hsusp htok,
   fun b r th hstep => tok_step b r th hstep hcur hsusp htok,
   fun mo r th hst => resolve_stale r th hst,
   scenarioA_fraction, scenarioB_fraction⟩

/-- Witness for `c7_supersession_amended` at `mMovePending` with its live
token 0: the hypotheses hold there and (instantiating the first conjunct)
`stop` leaves token 0 cancelled. -/
theorem c7_supersession_amended_witness :
    0 ∉ (stop mMovePending false).1.pending.map Prod.fst :=
  (c7_supersession_amended mMovePending plainCfg 0
    (by rw [mMovePending_eval])
    (by rw [mMovePending_eval])
    (by rw [mMovePending_eval])
    (by rw [mMovePending_eval]; decide)).1 false

end PlaybackControls
